import Mathlib

/-!
A shallow embedding of the session-state inference engine of
internal/session/session.go (claude-sessions-monitor), with theorems
checking the specification claims against it.

Modelling conventions:
* Go time.Time values are modelled as Int seconds; the Go zero time is
  modelled as 0 (IsZero becomes = 0, After becomes < on Int), and
  time.Since(t) becomes now - t, with an explicit now parameter standing
  for the wall clock that the Go code reads.
* Go strings are modelled as Lean String / List Char; Go byte indexing
  coincides with character indexing on the ASCII data the monitor handles.
* Token counts and pids are small non-negative machine integers in Go, so
  Nat is used; no overflow is reachable at these magnitudes.
* float64 percentages are modelled as exact rationals, computing the same
  formula totalTokens / DefaultContextWindow * 100 over the rationals.
* The raw JSON input of a Bash tool_use is modelled by its parsed form
  (Option BashToolInput); none stands for an absent or unparsable input.
* A Go nil-pointer dereference (a crash of the whole monitor) is modelled
  by returning none from the function that performs it.
-/

/-- Token usage data from the API response (struct Usage, session.go). -/
structure Usage where
  input_tokens : Nat
  cache_creation_input_tokens : Nat
  cache_read_input_tokens : Nat
  output_tokens : Nat
deriving DecidableEq

/-- Parsed input of a Bash tool_use entry (struct BashToolInput). -/
structure BashToolInput where
  command : String
  dangerouslyDisableSandbox : Bool
deriving DecidableEq

/-- An item in a message content array (struct ContentItem). -/
structure ContentItem where
  type : String
  text : String
  name : String
  input : Option BashToolInput
deriving DecidableEq

/-- The message field of a log entry (struct Message). -/
structure Message where
  role : String
  model : String
  content : List ContentItem
  usage : Option Usage
deriving DecidableEq

/-- One parsed line of the JSONL log (struct LogEntry). -/
structure LogEntry where
  type : String
  subtype : String
  timestamp : Int
  message : Option Message
  summary : String
  gitBranch : String
deriving DecidableEq

/-- DefaultContextWindow: the context window size constant (200K tokens). -/
def DefaultContextWindow : Nat := 200000

/-- Whether an entry is a compaction boundary marker, the condition of the
first backward scan of extractContextUsage (session.go lines 468-469). -/
def isBoundary (e : LogEntry) : Bool :=
  e.type == "system" &&
    (e.subtype == "compact_boundary" || e.subtype == "microcompact_boundary")

/-- The total context tokens reported by an entry, or none when the entry
is not an assistant entry carrying usage data; mirrors the skip guard
`entry.Type != "assistant" || entry.Message == nil || entry.Message.Usage
== nil` and the totalTokens sum of extractContextUsage. -/
def assistantTotal (e : LogEntry) : Option Nat :=
  if e.type == "assistant" then
    match e.message with
    | none => none
    | some m =>
      match m.usage with
      | none => none
      | some u =>
        some (u.input_tokens + u.cache_creation_input_tokens + u.cache_read_input_tokens)
  else none

/-- The second backward loop of extractContextUsage, expressed on the
reversed entry list: the first boundary met in reverse order is exactly the
last boundary of the original list, which is where the Go loop breaks
(`i <= lastBoundaryIdx`).  Returns the first nonzero total found before
that point (a zero total is skipped by `continue`, exactly as in Go). -/
def usageScan : List LogEntry → Option Nat
  | [] => none
  | e :: rest =>
    if isBoundary e then none
    else
      match assistantTotal e with
      | some t => if t = 0 then usageScan rest else some t
      | none => usageScan rest

/-- extractContextUsage (session.go lines 464-497): percentage of the
context window used (exact rational for the float64 value) and the total
input tokens of the most recent post-boundary usage record. -/
def extractContextUsage (entries : List LogEntry) : ℚ × Nat :=
  match usageScan entries.reverse with
  | some t => ((t : ℚ) / (DefaultContextWindow : ℚ) * 100, t)
  | none => (0, 0)

/-- Whether an entry is the qualifying entry of spec section 4.3: an
assistant entry carrying non-empty usage data. -/
def qualifiesUsage (e : LogEntry) : Bool :=
  (assistantTotal e).getD 0 != 0

/-- Written from the words of spec section 4.3, for comparison with the
code: consider only entries strictly after the last compaction boundary
(the longest boundary-free suffix), and let the most recent assistant
entry carrying non-empty usage data determine the result; if no qualifying
entry exists, return (0, 0). -/
def specContextUsage (entries : List LogEntry) : ℚ × Nat :=
  match (entries.reverse.takeWhile (fun e => !isBoundary e)).find? qualifiesUsage with
  | some e =>
    (((assistantTotal e).getD 0 : ℚ) / (DefaultContextWindow : ℚ) * 100,
      (assistantTotal e).getD 0)
  | none => (0, 0)

/-- The single-entry usage scenario of the spec (section 8): input=10,
cacheCreate=1000, cacheRead=19000. -/
def usageSample : LogEntry :=
  { type := "assistant", subtype := "", timestamp := 5,
    message := some { role := "assistant", model := "", content := [],
                      usage := some { input_tokens := 10, cache_creation_input_tokens := 1000,
                                      cache_read_input_tokens := 19000, output_tokens := 7 } },
    summary := "", gitBranch := "" }

/-- Replacement of a path separator by the filler character, the first
ReplaceAll of encodeProjectPath. -/
def slashToDash (c : Char) : Char := if c = '/' then '-' else c

/-- Replacement of a literal dot by the filler character, the second
ReplaceAll of encodeProjectPath. -/
def dotToDash (c : Char) : Char := if c = '.' then '-' else c

/-- The inverse replacement used by the decode fallback branch
(ReplaceAll of the filler character by a path separator). -/
def dashToSlash (c : Char) : Char := if c = '-' then '/' else c

/-- encodeProjectPath on character lists: both ReplaceAll calls are on
single characters, so they are maps over the characters. -/
def encodeChars (l : List Char) : List Char := (l.map slashToDash).map dotToDash

/-- encodeProjectPath (session.go lines 149-155). -/
def encodeProjectPath (path : String) : String := ⟨encodeChars path.data⟩

/-- strings.TrimPrefix(name, the filler character): drop one leading dash
if present. -/
def trimLeadingDash (l : List Char) : List Char :=
  match l with
  | [] => []
  | c :: rest => if c = '-' then rest else c :: rest

/-- strings.Index for a substring over character lists: the index of the
first occurrence of pat, or none (Go returns -1) if absent. -/
def indexOfSub (pat : List Char) : List Char → Option Nat
  | [] => if pat.isEmpty then some 0 else none
  | c :: rest =>
    if pat.isPrefixOf (c :: rest) then some 0
    else (indexOfSub pat rest).map (· + 1)

/-- Splitting off the piece before the first dash: none when the list has
no dash, otherwise the piece before it and the remainder after it. -/
def splitFirstDash : List Char → Option (List Char × List Char)
  | [] => none
  | c :: rest =>
    if c = '-' then some ([], rest)
    else (splitFirstDash rest).map (fun p => (c :: p.1, p.2))

/-- strings.SplitN(s, the filler character, 3): at most three pieces, the
last piece keeping its remaining dashes. -/
def splitN3 (l : List Char) : List (List Char) :=
  match splitFirstDash l with
  | none => [l]
  | some (a, r) =>
    match splitFirstDash r with
    | none => [a, r]
    | some (b, r2) => [a, b, r2]

/-- formatProjectPath (session.go lines 529-536): split on the first dash
only, yielding org/rest. -/
def formatProjectPathChars (l : List Char) : List Char :=
  match splitFirstDash l with
  | some p => p.1 ++ '/' :: p.2
  | none => l

/-- decodeProjectName (session.go lines 500-525) on character lists. -/
def decodeChars (name0 : List Char) : List Char :=
  let name := trimLeadingDash name0
  match indexOfSub "-Projects-".data name with
  | some idx => formatProjectPathChars (name.drop (idx + "-Projects-".data.length))
  | none =>
    let parts := splitN3 name
    if 3 ≤ parts.length ∧ parts.headD [] = "Users".data then
      formatProjectPathChars (parts.getD 2 [])
    else name.map dashToSlash

/-- decodeProjectName on strings. -/
def decodeProjectName (name : String) : String := ⟨decodeChars name.data⟩

/-- The session status enum (session.go lines 20-26). -/
inductive Status where
  | Working
  | NeedsInput
  | Waiting
  | Idle
  | Inactive
deriving DecidableEq

/-- The four locals of the single backward scan of determineStatus
(session.go lines 592-624): the most recent assistant entry, the most
recent user entry, the most recent turn_duration system entry, and the
largest non-zero timestamp seen so far. -/
structure ScanState where
  lastAssistant : Option LogEntry
  lastUser : Option LogEntry
  lastSystem : Option LogEntry
  lastTimestamp : Int
deriving DecidableEq

/-- One iteration of the backward scan: the timestamp update and the
switch on the entry type (only one arm of which can fire, since the type
is a single string). -/
def updateScan (s : ScanState) (e : LogEntry) : ScanState :=
  { lastAssistant :=
      if e.type = "assistant" ∧ s.lastAssistant = none then some e else s.lastAssistant,
    lastUser :=
      if e.type = "user" ∧ s.lastUser = none then some e else s.lastUser,
    lastSystem :=
      if e.type = "system" ∧ e.subtype = "turn_duration" ∧ s.lastSystem = none then some e
      else s.lastSystem,
    lastTimestamp :=
      if e.timestamp ≠ 0 ∧ s.lastTimestamp < e.timestamp then e.timestamp
      else s.lastTimestamp }

/-- The backward scan over the reversed entry list, with the early break
once all three entry kinds have been found (so lastTimestamp is the
maximum over the scanned suffix only, exactly as in Go). -/
def scanLoop : ScanState → List LogEntry → ScanState
  | s, [] => s
  | s, e :: rest =>
    let s2 := updateScan s e
    if s2.lastAssistant.isSome ∧ s2.lastUser.isSome ∧ s2.lastSystem.isSome then s2
    else scanLoop s2 rest

/-- The scan of determineStatus: iterate backward over the entries. -/
def scanState (entries : List LogEntry) : ScanState :=
  scanLoop { lastAssistant := none, lastUser := none, lastSystem := none, lastTimestamp := 0 }
    entries.reverse

/-- Outcome of the pending-tool_use check of determineStatus (lines
631-664): an early return with a status and task, a crash (nil-pointer
dereference), or fall-through to the staleness rules. -/
inductive ToolCheck where
  | crash
  | decided (s : Status) (task : String)
  | keepGoing
deriving DecidableEq

/-- The pending-tool_use check of determineStatus (session.go lines
631-664).  The Go loop acts on the first tool_use item of the last
assistant entry: if the last user entry is strictly later it scans that
entry's message content for a tool_result (dereferencing the message
pointer without a nil check - the crash case), returning Waiting or
Working when one is found; with no tool_result found the pending branch
returns NeedsInput with the tool name. -/
def checkTool (st : ScanState) : ToolCheck :=
  match st.lastAssistant with
  | none => .keepGoing
  | some la =>
    match la.message with
    | none => .keepGoing
    | some m =>
      match m.content.find? (fun c => c.type == "tool_use") with
      | none => .keepGoing
      | some c =>
        match st.lastUser with
        | none => .decided .NeedsInput ("Using: " ++ c.name)
        | some u =>
          if la.timestamp < u.timestamp then
            match u.message with
            | none => .crash
            | some um =>
              if um.content.any (fun x => x.type == "tool_result") then
                match st.lastSystem with
                | none => .decided .Working "Processing..."
                | some sys =>
                  if u.timestamp < sys.timestamp then .decided .Waiting "-"
                  else .decided .Working "Processing..."
              else .decided .NeedsInput ("Using: " ++ c.name)
          else .decided .NeedsInput ("Using: " ++ c.name)

/-- The index of the first newline character, or none (Go returns -1). -/
def idxOfChar (c : Char) : List Char → Option Nat
  | [] => none
  | x :: rest => if x = c then some 0 else (idxOfChar c rest).map (· + 1)

/-- Keep only the first line: text[:idx] when Index(text, newline) > 0. -/
def firstLineCut (l : List Char) : List Char :=
  match idxOfChar '\n' l with
  | some i => if 0 < i then l.take i else l
  | none => l

/-- extractTask on the content items (session.go lines 697-713): the first
tool_use with a name yields "Using: " plus the name; the first non-empty
text is truncated to 50 characters (47 plus an ellipsis) and cut at the
first newline. -/
def taskFromContent : List ContentItem → String
  | [] => "-"
  | c :: rest =>
    if c.type == "tool_use" && c.name != "" then "Using: " ++ c.name
    else if c.type == "text" && c.text != "" then
      ⟨firstLineCut (if 50 < c.text.data.length
                     then c.text.data.take 47 ++ "...".data
                     else c.text.data)⟩
    else taskFromContent rest

/-- extractTask (session.go lines 692-716); the argument is the possibly
nil pointer to the last assistant entry. -/
def extractTask (entry : Option LogEntry) : String :=
  match entry with
  | none => "-"
  | some e =>
    match e.message with
    | none => "-"
    | some m => taskFromContent m.content

/-- determineStatus (session.go lines 583-689).  isRunning is the process
flag; now is the wall clock read by the two time.Since calls (seconds).
The result none models the nil-pointer panic inside the tool_result
search; every Go return statement becomes some of its triple. -/
def determineStatus (entries : List LogEntry) (isRunning : Bool) (now : Int) :
    Option (Status × String × Bool) :=
  if entries = [] then
    if isRunning then some (.Waiting, "-", false) else some (.Inactive, "-", false)
  else
    let st := scanState entries
    if isRunning = false then some (.Inactive, "-", false)
    else
      match checkTool st with
      | .crash => none
      | .decided s t => some (s, t, false)
      | .keepGoing =>
        if 300 < now - st.lastTimestamp then some (.Waiting, "-", false)
        else
          match st.lastSystem, st.lastAssistant with
          | some _, none => some (.Waiting, "-", false)
          | some sys, some la =>
            if la.timestamp < sys.timestamp then some (.Waiting, "-", false)
            else if now - la.timestamp < 30 then some (.Working, extractTask (some la), false)
            else some (.Waiting, "-", false)
          | none, some la =>
            if now - la.timestamp < 30 then some (.Working, extractTask (some la), false)
            else some (.Waiting, "-", false)
          | none, none => some (.Waiting, "-", false)

/-- strings.TrimPrefix for an arbitrary leading piece. -/
def dropPre (pre l : List Char) : List Char :=
  if pre.isPrefixOf l then l.drop pre.length else l

/-- strings.TrimSpace: drop whitespace from both ends (Char.isWhitespace
agrees with the Go definition on the ASCII data handled here). -/
def trimSpaceChars (l : List Char) : List Char :=
  ((l.dropWhile Char.isWhitespace).reverse.dropWhile Char.isWhitespace).reverse

/-- The cleanup of extractLastAssistantMessage (session.go lines 415-422):
first line only, then strip leading markdown heading markers in turn. -/
def cleanMessageText (t : List Char) : List Char :=
  dropPre "### ".data (dropPre "## ".data (dropPre "# ".data (firstLineCut t)))

/-- The inner content loop of extractLastAssistantMessage: the first text
item whose trimmed text is non-empty yields the cleaned text. -/
def msgTextOf : List ContentItem → Option (List Char)
  | [] => none
  | c :: rest =>
    if c.type == "text" && c.text != "" then
      let t := trimSpaceChars c.text.data
      if t = [] then msgTextOf rest else some (cleanMessageText t)
    else msgTextOf rest

/-- extractLastAssistantMessage (session.go lines 400-428): most recent
assistant entry with a message that contains usable text. -/
def extractLastAssistantMessage (entries : List LogEntry) : String :=
  match entries.reverse.findSome? (fun e =>
      match e.message with
      | none => none
      | some m => if e.type == "assistant" then msgTextOf m.content else none) with
  | some t => ⟨t⟩
  | none => ""

/-- extractGitBranch (session.go lines 431-438). -/
def extractGitBranch (entries : List LogEntry) : String :=
  match entries.reverse.find? (fun e => e.gitBranch != "") with
  | some e => e.gitBranch
  | none => ""

/-- detectUnsandboxedCommands (session.go lines 441-458); the raw JSON
input and its Unmarshal are modelled by the parsed Option field. -/
def detectUnsandboxedCommands (entries : List LogEntry) : Bool :=
  entries.any (fun e =>
    match e.message with
    | none => false
    | some m =>
      if e.type == "assistant" then
        m.content.any (fun c =>
          c.type == "tool_use" && c.name == "Bash" &&
            (match c.input with
             | some i => i.dangerouslyDisableSandbox
             | none => false))
      else false)

/-- extractSummary (session.go lines 363-397) over the parsed lines of the
whole file: the last summary entry with non-empty text wins (the
strings.Contains pre-filter of the Go code is only an optimization). -/
def extractSummary (entries : List LogEntry) : String :=
  entries.foldl (fun acc e =>
    if e.type == "summary" && e.summary != "" then e.summary else acc) ""

/-- The trailing-count cap of readLastEntries (session.go lines 566-569). -/
def lastEntries (count : Nat) (l : List LogEntry) : List LogEntry :=
  if count < l.length then l.drop (l.length - count) else l

/-- The final loop of parseSession (session.go lines 351-356): the most
recent non-zero entry timestamp, with the file modification time as
fallback. -/
def lastNonZeroTimestamp (entries : List LogEntry) (fallback : Int) : Int :=
  match entries.reverse.find? (fun e => decide (e.timestamp ≠ 0)) with
  | some e => e.timestamp
  | none => fallback

/-- isDesktopSession (session.go lines 159-166): detection is disabled. -/
def isDesktopSession (_projectName : String) : Bool := false

/-- A Claude Code session record (struct Session); the LogFile field (the
path of the file the entries came from) is omitted, every other field is
kept.  Timestamps are Int seconds, the context percentage is the exact
rational, the pid is a Nat. -/
structure Session where
  project : String
  status : Status
  lastActivity : Int
  task : String
  summary : String
  lastMessage : String
  gitBranch : String
  hasUnsandboxed : Bool
  contextPercent : ℚ
  contextTokens : Nat
  isGhost : Bool
  ghostPid : Nat
  projectPath : String
  isDesktop : Bool
deriving DecidableEq

/-- parseSession (session.go lines 297-359) with its effects made
explicit: runningPid is the result of the runningDirs lookup (some pid
when Claude runs in the project directory), modTime the stat result,
fileEntries the parsed lines of the log file (readLastEntries keeps the
last 100 of them), now the wall clock.  The stat-failure early return
(whose session Discover drops) is not modelled; a crash of determineStatus
propagates as none. -/
def parseSessionPure (projectName : String) (runningPid : Option Nat) (modTime : Int)
    (fileEntries : List LogEntry) (now : Int) : Option Session :=
  let isRunning := runningPid.isSome
  let pid := runningPid.getD 0
  let base : Session :=
    { project := decodeProjectName projectName, status := .Inactive, lastActivity := modTime,
      task := "", summary := "", lastMessage := "", gitBranch := "", hasUnsandboxed := false,
      contextPercent := 0, contextTokens := 0, isGhost := false, ghostPid := 0,
      projectPath := projectName, isDesktop := isDesktopSession projectName }
  let entries := lastEntries 100 fileEntries
  if entries = [] then some base
  else
    match determineStatus entries isRunning now with
    | none => none
    | some r =>
      some { base with
        summary := extractSummary fileEntries,
        lastMessage := extractLastAssistantMessage entries,
        gitBranch := extractGitBranch entries,
        hasUnsandboxed := detectUnsandboxedCommands entries,
        contextPercent := (extractContextUsage entries).1,
        contextTokens := (extractContextUsage entries).2,
        status := r.1, task := r.2.1, isGhost := r.2.2,
        ghostPid := if isRunning ∧ 0 < pid then pid else 0,
        lastActivity := lastNonZeroTimestamp entries modTime }

/-- An orphaned Claude process (struct GhostProcess). -/
structure GhostProcess where
  pid : Nat
  project : String
  age : Int
deriving DecidableEq

/-- FindGhostProcesses (session.go lines 727-751) with its effects made
explicit: the Discover call is replaced by the session list argument and
time.Since by the now argument.  Sessions whose GhostPID is zero are
skipped; the rest are ghosts when the log has been inactive for more than
one hour (3600 seconds). -/
def FindGhostProcesses (now : Int) : List Session → List GhostProcess
  | [] => []
  | s :: rest =>
    if s.ghostPid = 0 then FindGhostProcesses now rest
    else
      if 3600 < now - s.lastActivity then
        { pid := s.ghostPid, project := s.project, age := now - s.lastActivity } ::
          FindGhostProcesses now rest
      else FindGhostProcesses now rest

/-- A plain text content item. -/
def textHi : ContentItem := { type := "text", text := "hi", name := "", input := none }

/-- An assistant entry with text content at timestamp 1000. -/
def assistHi : LogEntry :=
  { type := "assistant", subtype := "", timestamp := 1000,
    message := some { role := "assistant", model := "", content := [textHi], usage := none },
    summary := "", gitBranch := "" }

/-- A turn_duration system entry with the same timestamp as assistHi. -/
def turnDur1000 : LogEntry :=
  { type := "system", subtype := "turn_duration", timestamp := 1000,
    message := none, summary := "", gitBranch := "" }

/-- A turn_duration system entry strictly after assistHi. -/
def turnDur1005 : LogEntry :=
  { type := "system", subtype := "turn_duration", timestamp := 1005,
    message := none, summary := "", gitBranch := "" }

/-- A tail where the turn_duration entry carries the same timestamp as the
last assistant entry. -/
def equalTsEntries : List LogEntry := [assistHi, turnDur1000]

/-- A tail where the turn_duration entry is strictly later than the last
assistant entry. -/
def strictTsEntries : List LogEntry := [assistHi, turnDur1005]

/-- A Bash tool_use content item. -/
def toolUseBash : ContentItem := { type := "tool_use", text := "", name := "Bash", input := none }

/-- An assistant entry ending in a tool_use, at timestamp 100. -/
def assistToolUse : LogEntry :=
  { type := "assistant", subtype := "", timestamp := 100,
    message := some { role := "assistant", model := "", content := [toolUseBash], usage := none },
    summary := "", gitBranch := "" }

/-- A user entry carrying no message object, at timestamp 200 (a log line
such as a bare interruption marker parses to exactly this). -/
def userNoMessage : LogEntry :=
  { type := "user", subtype := "", timestamp := 200,
    message := none, summary := "", gitBranch := "" }

/-- The tail on which the unguarded dereference of the last user entry's
message fires: pending tool_use, later user entry, nil message. -/
def crashEntries : List LogEntry := [assistToolUse, userNoMessage]

/-- A compact_boundary system entry. -/
def boundaryEntry : LogEntry :=
  { type := "system", subtype := "compact_boundary", timestamp := 3,
    message := none, summary := "", gitBranch := "" }

/-- An assistant usage entry older than the boundary. -/
def preUsageEntry : LogEntry :=
  { type := "assistant", subtype := "", timestamp := 1,
    message := some { role := "assistant", model := "", content := [],
                      usage := some { input_tokens := 7, cache_creation_input_tokens := 8,
                                      cache_read_input_tokens := 9, output_tokens := 1 } },
    summary := "", gitBranch := "" }

/-- A session with a recorded pid and stale activity, for the ghost
filter. -/
def ghostSession : Session :=
  { project := "org/project", status := .Waiting, lastActivity := 0, task := "-",
    summary := "", lastMessage := "", gitBranch := "", hasUnsandboxed := false,
    contextPercent := 0, contextTokens := 0, isGhost := false, ghostPid := 5,
    projectPath := "-x", isDesktop := false }

/-- The session parseSessionPure assembles for project "p" with no running
process and an empty log. -/
def parsedSample : Session :=
  { project := "p", status := .Inactive, lastActivity := 5, task := "", summary := "",
    lastMessage := "", gitBranch := "", hasUnsandboxed := false, contextPercent := 0,
    contextTokens := 0, isGhost := false, ghostPid := 0, projectPath := "p",
    isDesktop := false }

lemma usageScan_eq_find (l : List LogEntry) :
    usageScan l =
      ((l.takeWhile (fun e => !isBoundary e)).find? qualifiesUsage).map
        (fun e => (assistantTotal e).getD 0) := by
  induction l with
  | nil => rfl
  | cons e rest ih =>
    by_cases hb : isBoundary e
    · simp [usageScan, hb, List.takeWhile_cons]
    · rcases ht : assistantTotal e with _ | t
      · have hq : qualifiesUsage e = false := by simp [qualifiesUsage, ht]
        simp [usageScan, hb, ht, List.takeWhile_cons, List.find?_cons, hq, ih]
      · by_cases h0 : t = 0
        · have hq : qualifiesUsage e = false := by simp [qualifiesUsage, ht, h0]
          simp [usageScan, hb, ht, h0, List.takeWhile_cons, List.find?_cons, hq, ih]
        · have hq : qualifiesUsage e = true := by simp [qualifiesUsage, ht, h0]
          simp [usageScan, hb, ht, h0, List.takeWhile_cons, List.find?_cons, hq]

/-- Claim C3: extractContextUsage returns, for the most recent
post-boundary assistant entry with non-empty usage data, totalTokens =
inputTokens + cacheCreationInputTokens + cacheReadInputTokens (output
tokens excluded) and percent = totalTokens / 200000 * 100, and (0, 0) when
no qualifying entry exists; in particular the single entry with usage
input=10, cacheCreate=1000, cacheRead=19000 yields tokens 20010 and
percent 10.005 (= 2001/200 exactly, the real-number value the float64
computation approximates). -/
theorem extractContextUsage_matches_spec :
    (∀ entries : List LogEntry, extractContextUsage entries = specContextUsage entries) ∧
    extractContextUsage [usageSample] = ((2001 : ℚ) / 200, 20010) := by
  constructor
  · intro entries
    rw [extractContextUsage, specContextUsage, usageScan_eq_find]
    rcases (entries.reverse.takeWhile (fun e => !isBoundary e)).find? qualifiesUsage with _ | e
    · rfl
    · rfl
  · have h : usageScan [usageSample].reverse = some 20010 := by decide
    rw [extractContextUsage, h]
    norm_num [DefaultContextWindow]

/-- Claim C10: the tool_result search of determineStatus dereferences the
last user entry's message without a nil check (session.go line 641), so a
tail whose last assistant entry holds a pending tool_use and whose last
user entry is later but carries no message object crashes the monitor
instead of producing a triple; the model returns none there. -/
theorem determineStatus_nilMessage_crash : determineStatus crashEntries true 300 = none := by
  decide

lemma determineStatus_ghost_aux (entries : List LogEntry) (isRunning : Bool) (now : Int)
    (res : Status × String × Bool) (h : determineStatus entries isRunning now = some res) :
    res.2.2 = false := by
  simp only [determineStatus] at h
  repeat' split at h
  all_goals first
    | exact Option.noConfusion h
    | (injection h with h2; subst h2; rfl)

/-- Claim C9: for every entry list, running flag and clock value, the
third component (the ghost flag) of any triple determineStatus returns is
false, so no Session assembled by parseSession has its isGhost flag set. -/
theorem determineStatus_never_ghost (entries : List LogEntry) (isRunning : Bool) (now : Int)
    (res : Status × String × Bool) (h : determineStatus entries isRunning now = some res) :
    res.2.2 = false :=
  determineStatus_ghost_aux entries isRunning now res h

theorem determineStatus_never_ghost_witness :
    determineStatus [] false 0 = some (.Inactive, "-", false) ∧
      ((Status.Inactive, "-", false) : Status × String × Bool).2.2 = false :=
  ⟨by decide, determineStatus_never_ghost [] false 0 (.Inactive, "-", false) (by decide)⟩

/-- Claim C8 (amended): determineStatus is a pure, deterministic function
of entries, the running flag, and the wall-clock instant read by its
time.Since calls: two invocations agreeing on all three inputs yield
identical (status, task, ghost) triples, with no side effects.  (As
stated over the two explicit inputs only, the claim fails: the result
also depends on the clock, see the counterexample.) -/
theorem determineStatus_deterministic (e1 e2 : List LogEntry) (r1 r2 : Bool) (n1 n2 : Int)
    (he : e1 = e2) (hr : r1 = r2) (hn : n1 = n2) :
    determineStatus e1 r1 n1 = determineStatus e2 r2 n2 := by
  subst he; subst hr; subst hn; rfl

theorem determineStatus_deterministic_witness :
    ([assistHi] : List LogEntry) = [assistHi] ∧ (true = true) ∧ ((1010 : Int) = 1010) ∧
      determineStatus [assistHi] true 1010 = determineStatus [assistHi] true 1010 :=
  ⟨rfl, rfl, rfl, determineStatus_deterministic [assistHi] [assistHi] true true 1010 1010
    rfl rfl rfl⟩

/-- Counterexample to claim C8 as stated: with the same entry list and the
same running flag, two invocations made at different wall-clock instants
(10 seconds and 400 seconds after the last activity) return different
triples, because the 5-minute staleness rule and the 30-second Working
rule read the clock. -/
theorem determineStatus_clock_dependence :
    determineStatus [assistHi] true 1010 = some (.Working, "hi", false) ∧
    determineStatus [assistHi] true 1400 = some (.Waiting, "-", false) ∧
    determineStatus [assistHi] true 1010 ≠ determineStatus [assistHi] true 1400 := by
  refine ⟨by decide, by decide, by decide⟩

lemma findGhosts_mem (now : Int) (ss : List Session) (g : GhostProcess)
    (hg : g ∈ FindGhostProcesses now ss) : 0 < g.pid ∧ 3600 < g.age := by
  induction ss with
  | nil => simp [FindGhostProcesses] at hg
  | cons s rest ih =>
    unfold FindGhostProcesses at hg
    split at hg
    · exact ih hg
    · split at hg
      · rcases List.mem_cons.mp hg with h | h
        · subst h
          refine ⟨Nat.pos_of_ne_zero ?_, ?_⟩
          · assumption
          · assumption
        · exact ih h
      · exact ih hg

/-- Claim C4: a session contributes a ghost record to FindGhostProcesses
exactly when its recorded pid is positive and its last activity is more
than one hour before now; a session whose ghostPid is zero is never a
ghost, regardless of age. -/
theorem findGhosts_iff (now : Int) (ss : List Session) (s : Session) (hs : s ∈ ss) :
    (({ pid := s.ghostPid, project := s.project, age := now - s.lastActivity } : GhostProcess) ∈
        FindGhostProcesses now ss) ↔
      (0 < s.ghostPid ∧ 3600 < now - s.lastActivity) := by
  constructor
  · intro hg
    simpa using findGhosts_mem now ss _ hg
  · rintro ⟨hp, ha⟩
    induction ss with
    | nil => simp at hs
    | cons a rest ih =>
      unfold FindGhostProcesses
      rcases List.mem_cons.mp hs with h | h
      · subst h
        rw [if_neg (by omega), if_pos ha]
        exact List.mem_cons_self _ _
      · by_cases h0 : a.ghostPid = 0
        · rw [if_pos h0]; exact ih h
        · rw [if_neg h0]
          by_cases h1 : 3600 < now - a.lastActivity
          · rw [if_pos h1]; exact List.mem_cons_of_mem _ (ih h)
          · rw [if_neg h1]; exact ih h

theorem findGhosts_iff_witness :
    ghostSession ∈ [ghostSession] ∧ 0 < ghostSession.ghostPid ∧
      (3600 : Int) < 10000 - ghostSession.lastActivity ∧
      (({ pid := ghostSession.ghostPid, project := ghostSession.project,
          age := 10000 - ghostSession.lastActivity } : GhostProcess) ∈
        FindGhostProcesses 10000 [ghostSession]) :=
  ⟨by decide, by decide, by decide,
    (findGhosts_iff 10000 [ghostSession] ghostSession (by decide)).mpr ⟨by decide, by decide⟩⟩

/-- Claim C1: when the most recent assistant entry contains a tool_use
item and the pending-approval check finds no later user tool_result (the
last user entry is absent, not later, or carries a message with no
tool_result item), determineStatus with isRunning = true returns
NeedsInput with task "Using: " plus the tool name, for every clock value:
the 5-minute staleness rule is checked only after this branch returns, so
a pending approval is never downgraded to Waiting by elapsed time.  (The
corner where the later user entry carries no message object at all does
not reach this outcome: it crashes instead, see claim C10.) -/
theorem pendingToolUse_needsInput (entries : List LogEntry) (now : Int)
    (la : LogEntry) (m : Message) (c : ContentItem)
    (h1 : (scanState entries).lastAssistant = some la)
    (h2 : la.message = some m)
    (h3 : m.content.find? (fun x => x.type == "tool_use") = some c)
    (h4 : (scanState entries).lastUser = none ∨
          (∃ u, (scanState entries).lastUser = some u ∧ ¬ la.timestamp < u.timestamp) ∨
          (∃ u um, (scanState entries).lastUser = some u ∧ u.message = some um ∧
            ∀ x ∈ um.content, ¬ x.type = "tool_result")) :
    determineStatus entries true now = some (.NeedsInput, "Using: " ++ c.name, false) := by
  have hne : entries ≠ [] := by
    intro he
    subst he
    simp [scanState, scanLoop] at h1
  have hct : checkTool (scanState entries) = .decided .NeedsInput ("Using: " ++ c.name) := by
    unfold checkTool
    rcases h4 with h | ⟨u, hu, hlt⟩ | ⟨u, um, hu, hum, hres⟩
    · simp [h1, h2, h3, h]
    · simp [h1, h2, h3, hu, hlt]
    · have hany : um.content.any (fun x => x.type == "tool_result") = false := by
        rw [List.any_eq_false]
        intro x hx
        simpa using hres x hx
      by_cases hlt : la.timestamp < u.timestamp
      · simp [h1, h2, h3, hu, hum, hlt, hany]
      · simp [h1, h2, h3, hu, hlt]
  simp only [determineStatus]
  rw [if_neg hne]
  simp [hct]

theorem pendingToolUse_needsInput_witness :
    (scanState [assistToolUse]).lastAssistant = some assistToolUse ∧
    assistToolUse.message =
      some { role := "assistant", model := "", content := [toolUseBash], usage := none } ∧
    (scanState [assistToolUse]).lastUser = none ∧
    determineStatus [assistToolUse] true 1000000 =
      some (.NeedsInput, "Using: Bash", false) :=
  ⟨by decide, by decide, by decide,
    pendingToolUse_needsInput [assistToolUse] 1000000 assistToolUse
      { role := "assistant", model := "", content := [toolUseBash], usage := none } toolUseBash
      (by decide) (by decide) (by decide) (Or.inl (by decide))⟩

/-- Counterexample to claim C6 as stated ("at or after"): in the tail
[assistant(text, t=1000), system turn_duration(t=1000)] a turn_duration
entry exists whose timestamp is at (equal to) the last assistant entry's
timestamp, no tool_use is pending and the activity is 10 seconds old, yet
determineStatus returns Working, not Waiting: the code compares with the
strict After, so the equal-timestamp case falls through to the 30-second
Working rule. -/
theorem turnDuration_equalTs_not_waiting :
    (scanState equalTsEntries).lastSystem = some turnDur1000 ∧
    (scanState equalTsEntries).lastAssistant = some assistHi ∧
    turnDur1000.subtype = "turn_duration" ∧
    assistHi.timestamp ≤ turnDur1000.timestamp ∧
    checkTool (scanState equalTsEntries) = .keepGoing ∧
    1010 - (scanState equalTsEntries).lastTimestamp ≤ 300 ∧
    determineStatus equalTsEntries true 1010 = some (.Working, "hi", false) ∧
    determineStatus equalTsEntries true 1010 ≠ some (.Waiting, "-", false) := by
  refine ⟨by decide, by decide, by decide, by decide, by decide, by decide, by decide, by decide⟩

/-- Claim C6 (amended: strictly after instead of at-or-after): for a
non-empty tail with isRunning = true that is not decided by an earlier
rule (the tool_use check falls through and the most recent activity is at
most 5 minutes old), if the most recent turn_duration system entry is
strictly later than the last assistant entry (or no assistant entry
exists), determineStatus returns Waiting.  With equal timestamps the rule
does not fire, see the counterexample. -/
theorem turnDuration_after_assistant_waiting (entries : List LogEntry) (now : Int)
    (sys : LogEntry)
    (hne : entries ≠ [])
    (hkg : checkTool (scanState entries) = .keepGoing)
    (hfresh : now - (scanState entries).lastTimestamp ≤ 300)
    (hsys : (scanState entries).lastSystem = some sys)
    (hafter : ∀ la, (scanState entries).lastAssistant = some la →
      la.timestamp < sys.timestamp) :
    determineStatus entries true now = some (.Waiting, "-", false) := by
  have h300 : ¬ 300 < now - (scanState entries).lastTimestamp := by omega
  simp only [determineStatus]
  rw [if_neg hne]
  rcases hla : (scanState entries).lastAssistant with _ | la
  · simp [hkg, h300, hsys, hla]
  · simp [hkg, h300, hsys, hla, hafter la hla]

theorem turnDuration_after_assistant_waiting_witness :
    strictTsEntries ≠ [] ∧
    checkTool (scanState strictTsEntries) = .keepGoing ∧
    1010 - (scanState strictTsEntries).lastTimestamp ≤ 300 ∧
    (scanState strictTsEntries).lastSystem = some turnDur1005 ∧
    determineStatus strictTsEntries true 1010 = some (.Waiting, "-", false) :=
  ⟨by decide, by decide, by decide, by decide,
    turnDuration_after_assistant_waiting strictTsEntries 1010 turnDur1005
      (by decide) (by decide) (by decide) (by decide)
      (fun la h => by
        have h2 : (some assistHi : Option LogEntry) = some la := h
        cases h2
        decide)⟩

lemma usageScan_append_boundary (b : LogEntry) (hb : isBoundary b = true)
    (L M : List LogEntry) : usageScan (L ++ b :: M) = usageScan L := by
  induction L with
  | nil => simp [usageScan, hb]
  | cons e rest ih =>
    by_cases hbe : isBoundary e
    · simp [usageScan, hbe]
    · rcases ht : assistantTotal e with _ | t
      · simp [usageScan, hbe, ht, ih]
      · by_cases h0 : t = 0
        · simp [usageScan, hbe, ht, h0, ih]
        · simp [usageScan, hbe, ht, h0]

/-- Claim C2: extractContextUsage depends only on the entries strictly
after the last compaction boundary: for a boundary entry b followed by a
boundary-free suffix B, the entries before b (here: arbitrary prefixes A
and A2, covering in particular the insertion of extra assistant usage
entries) do not change the result. -/
theorem contextUsage_preBoundary_invariant (A A2 B : List LogEntry) (b : LogEntry)
    (hb : isBoundary b = true) (_hB : ∀ e ∈ B, isBoundary e = false) :
    extractContextUsage (A ++ b :: B) = extractContextUsage (A2 ++ b :: B) := by
  unfold extractContextUsage
  have h1 : (A ++ b :: B).reverse = B.reverse ++ b :: A.reverse := by
    simp [List.reverse_append]
  have h2 : (A2 ++ b :: B).reverse = B.reverse ++ b :: A2.reverse := by
    simp [List.reverse_append]
  rw [h1, h2, usageScan_append_boundary b hb, usageScan_append_boundary b hb]

theorem contextUsage_preBoundary_invariant_witness :
    isBoundary boundaryEntry = true ∧ isBoundary usageSample = false ∧
    extractContextUsage [preUsageEntry, boundaryEntry, usageSample] =
      extractContextUsage [boundaryEntry, usageSample] :=
  ⟨by decide, by decide,
    contextUsage_preBoundary_invariant [preUsageEntry] [] [usageSample] boundaryEntry
      (by decide) (by decide)⟩

lemma checkTool_decided_status (st : ScanState) (s : Status) (t : String)
    (h : checkTool st = .decided s t) : s ≠ .Inactive := by
  unfold checkTool at h
  repeat' split at h
  all_goals first
    | exact ToolCheck.noConfusion h
    | (injection h with h2 h3; subst h2; intro hc; exact Status.noConfusion hc)

lemma determineStatus_inactive_not_running (entries : List LogEntry) (b : Bool) (now : Int)
    (res : Status × String × Bool) (h : determineStatus entries b now = some res)
    (hi : res.1 = .Inactive) : b = false := by
  cases b with
  | false => rfl
  | true =>
    exfalso
    simp only [determineStatus] at h
    repeat' split at h
    all_goals first
      | exact Option.noConfusion h
      | contradiction
      | (injection h with h2
         subst h2
         exact Status.noConfusion hi)
      | (injection h with h2
         subst h2
         exact checkTool_decided_status _ _ _ (by assumption) hi)

/-- Claim C5: every Session assembled by a discovery pass (parseSession
with its effects made explicit) satisfies the invariant that an Inactive
status comes with ghostPid = 0 and isGhost = false: the status can only be
Inactive when the process is not running (or the log is empty, where the
defaults are kept), and the pid is only stored for running sessions. -/
theorem parseSession_inactive_invariant (pn : String) (rp : Option Nat) (mt : Int)
    (fe : List LogEntry) (now : Int) (s : Session)
    (h : parseSessionPure pn rp mt fe now = some s) (hi : s.status = .Inactive) :
    s.ghostPid = 0 ∧ s.isGhost = false := by
  simp only [parseSessionPure] at h
  split at h
  · injection h with h2
    subst h2
    exact ⟨rfl, rfl⟩
  · split at h
    · exact Option.noConfusion h
    · injection h with h2
      subst h2
      rename_i r heq
      have hg : r.2.2 = false := determineStatus_ghost_aux _ _ _ _ heq
      have hrun : rp.isSome = false :=
        determineStatus_inactive_not_running _ _ _ _ heq (by simpa using hi)
      refine ⟨?_, by simpa using hg⟩
      simp [hrun]

theorem parseSession_inactive_invariant_witness :
    parseSessionPure "p" none 5 [] 9 = some parsedSample ∧
    parsedSample.status = .Inactive ∧
    parsedSample.ghostPid = 0 ∧ parsedSample.isGhost = false :=
  ⟨by decide, by decide,
    parseSession_inactive_invariant "p" none 5 [] 9 parsedSample (by decide) (by decide)⟩

lemma encodeChars_no_dot (l : List Char) (h : '.' ∉ l) :
    encodeChars l = l.map slashToDash := by
  induction l with
  | nil => rfl
  | cons c t ih =>
    have hc : c ≠ '.' := fun e => h (e ▸ List.mem_cons_self c t)
    have ht : '.' ∉ t := fun m => h (List.mem_cons_of_mem c m)
    simp only [encodeChars, List.map_cons] at ih ⊢
    rw [ih ht]
    have hd : dotToDash (slashToDash c) = slashToDash c := by
      by_cases h2 : c = '/'
      · subst h2; decide
      · simp [slashToDash, dotToDash, h2, hc]
    rw [hd]

lemma map_slash_roundtrip (l : List Char) (h : '-' ∉ l) :
    (l.map slashToDash).map dashToSlash = l := by
  induction l with
  | nil => rfl
  | cons c t ih =>
    have hc : c ≠ '-' := fun e => h (e ▸ List.mem_cons_self c t)
    have ht : '-' ∉ t := fun m => h (List.mem_cons_of_mem c m)
    simp only [List.map_cons]
    rw [ih ht]
    have hd : dashToSlash (slashToDash c) = c := by
      by_cases h2 : c = '/'
      · subst h2; decide
      · simp [slashToDash, dashToSlash, h2, hc]
    rw [hd]

lemma trimLeadingDash_eq (l : List Char) (h : l.head? ≠ some '-') :
    trimLeadingDash l = l := by
  cases l with
  | nil => rfl
  | cons c t =>
    have hc : c ≠ '-' := by
      intro e
      exact h (by simp [e])
    simp [trimLeadingDash, hc]

lemma decode_encode_chars (l : List Char)
    (hdot : '.' ∉ l) (hdash : '-' ∉ l) (hhead : l.head? ≠ some '/')
    (hproj : indexOfSub "-Projects-".data (encodeChars l) = none)
    (husers : ¬ (3 ≤ (splitN3 (encodeChars l)).length ∧
      (splitN3 (encodeChars l)).headD [] = "Users".data)) :
    decodeChars (encodeChars l) = l := by
  have henc : encodeChars l = l.map slashToDash := encodeChars_no_dot l hdot
  have hhd : (l.map slashToDash).head? ≠ some '-' := by
    cases l with
    | nil => simp
    | cons c t =>
      have hc : c ≠ '-' := fun e => hdash (e ▸ List.mem_cons_self c t)
      have hs : c ≠ '/' := by
        intro e
        exact hhead (by simp [e])
      simp [slashToDash, hs, hc]
  rw [henc] at hproj husers ⊢
  simp only [decodeChars]
  rw [trimLeadingDash_eq _ hhd]
  simp only [hproj]
  rw [if_neg husers]
  exact map_slash_roundtrip l hdash

/-- Counterexample to claim C7 as stated: the path
/Users/alice/Projects/org/project contains no literal dots and no dashes
anywhere (so in particular none adjacent to a separator boundary in its
final two components), yet the roundtrip returns the two-component label
org/project rather than the path: decodeProjectName deliberately produces
a human-readable label, not the original path, whenever the -Projects-
marker or the Users prefix is present or a leading separator was
trimmed. -/
theorem pathCodec_roundtrip_cx :
    ('.' ∉ "/Users/alice/Projects/org/project".data) ∧
    ('-' ∉ "/Users/alice/Projects/org/project".data) ∧
    decodeProjectName (encodeProjectPath "/Users/alice/Projects/org/project") =
      "org/project" ∧
    decodeProjectName (encodeProjectPath "/Users/alice/Projects/org/project") ≠
      "/Users/alice/Projects/org/project" := by
  refine ⟨by decide, by decide, by decide, by decide⟩

/-- Claim C7 (amended): decodeProjectName recovers the encoded path
exactly on the decode fallback branch: paths with no literal dot, no dash,
no leading path separator, whose encoding neither contains the -Projects-
marker nor matches the Users-username prefix rule.  Paths under a Projects
directory or below /Users decode to a shortened label instead, so the
roundtrip does not recover them (see the counterexample). -/
theorem pathCodec_roundtrip_fallback (p : String)
    (hdot : '.' ∉ p.data) (hdash : '-' ∉ p.data) (hhead : p.data.head? ≠ some '/')
    (hproj : indexOfSub "-Projects-".data (encodeChars p.data) = none)
    (husers : ¬ (3 ≤ (splitN3 (encodeChars p.data)).length ∧
      (splitN3 (encodeChars p.data)).headD [] = "Users".data)) :
    decodeProjectName (encodeProjectPath p) = p := by
  obtain ⟨l⟩ := p
  exact congrArg String.mk (decode_encode_chars l hdot hdash hhead hproj husers)

theorem pathCodec_roundtrip_fallback_witness :
    ('.' ∉ "org/project".data) ∧ ('-' ∉ "org/project".data) ∧
    decodeProjectName (encodeProjectPath "org/project") = "org/project" :=
  ⟨by decide, by decide,
    pathCodec_roundtrip_fallback "org/project" (by decide) (by decide) (by decide)
      (by decide) (by decide)⟩
